import Mathlib

/-!
# Verification of the remotion lambda launch orchestrator

Shallow embedding of `src/packages/lambda/src/functions/launch.ts`
(`innerLaunchHandler` / `launchHandler`) and the helpers it uses.
Pure fragments (the progress reporter closure, the fan-out grouping,
the planner arithmetic) are translated as Lean functions; the stateful
launch flow is translated as a function from an explicit environment
(outcomes of the fallible external operations, the clock, the stream of
progress observations) to a linear trace of observable events plus a
result.  Helpers that live in the repository but outside the analyzed
sources (`shared/chunk.ts`, `validate-frames-per-lambda.ts`,
`write-lambda-error.ts`, `plan-frame-ranges.ts`, `concat-videos.ts`)
are modelled from the specification and marked as such.
-/

namespace Launch

/-! ## Progress reporter (launch.ts lines 189-239)

The closure captures `lastProgressUploaded : number` (initially `0`) and
`encodingStop : number | null` (initially `null`).  On an observation
`(framesEncoded, start)` it computes `relativeProgress = framesEncoded /
comp.durationInFrames`, the delta against `lastProgressUploaded`, sets
`encodingStop = Date.now()` whenever `relativeProgress === 1`, returns
without writing when the delta is `< 0.1`, and otherwise records
`lastProgressUploaded = relativeProgress` and fires an
`EncodingProgress` write.  JavaScript numbers are embedded as `ℚ`
(frames are integers, so the comparisons `=== 1` and `< 0.1` are exact);
timestamps as `ℤ`.  The JS truthiness test `encodingStop ? ... : null`
is `false` for the number `0`, which the embedding reproduces. -/

structure ProgState where
  lastProgressUploaded : ℚ
  encodingStop : Option ℤ
deriving DecidableEq, Repr

/-- Initial state of the progress closure: `lastProgressUploaded = 0`,
`encodingStop = null`. -/
def initProgState : ProgState := ⟨0, none⟩

/-- The `EncodingProgress` record written by the reporter
(`shared/constants.ts` shape, as used in launch.ts lines 206-211). -/
structure EncodingProgressRec where
  framesEncoded : ℕ
  totalFrames : ℕ
  doneIn : Option ℤ
  timeToInvoke : Option ℤ
deriving DecidableEq, Repr

/-- One call of the `onProgress` closure (launch.ts lines 192-239):
returns the updated captured state and the `EncodingProgress` record
whose write was fired, if any. -/
def onProgressStep (durationInFrames : ℕ) (st : ProgState)
    (framesEncoded : ℕ) (now start : ℤ) :
    ProgState × Option EncodingProgressRec :=
  let relativeProgress : ℚ := (framesEncoded : ℚ) / (durationInFrames : ℚ)
  let deltaSinceLastProgressUploaded :=
    relativeProgress - st.lastProgressUploaded
  let st1 : ProgState :=
    if relativeProgress = 1 then { st with encodingStop := some now } else st
  if deltaSinceLastProgressUploaded < 1/10 then (st1, none)
  else
    ({ st1 with lastProgressUploaded := relativeProgress },
      some { framesEncoded := framesEncoded
             totalFrames := durationInFrames
             doneIn :=
               match st1.encodingStop with
               | some t => if t = 0 then none else some (t - start)
               | none => none
             timeToInvoke := none })

/-- One progress observation delivered to the closure:
the frame count, the clock value `Date.now()` at that moment and the
`start` argument supplied by the caller. -/
structure Obs where
  framesEncoded : ℕ
  now : ℤ
  start : ℤ
deriving DecidableEq, Repr

/-- Folding the `onProgress` closure over a sequence of observations,
collecting the fired `EncodingProgress` writes in order. -/
def runProgressList (durationInFrames : ℕ) (st : ProgState) :
    List Obs → ProgState × List EncodingProgressRec
  | [] => (st, [])
  | o :: rest =>
    let p := onProgressStep durationInFrames st o.framesEncoded o.now o.start
    let r := runProgressList durationInFrames p.1 rest
    (r.1, (match p.2 with | some w => [w] | none => []) ++ r.2)

/-- Relative value recorded by a persisted snapshot. -/
def relOf (w : EncodingProgressRec) : ℚ :=
  (w.framesEncoded : ℚ) / (w.totalFrames : ℚ)

/-! ## Fan-out grouping and invoker count (launch.ts lines 100 and 166)

`invokers = Math.round(Math.sqrt(chunks.length))`; the payload list is
then split by the shared `chunk` helper into contiguous groups and each
group is dispatched as one fire invocation. -/

/-- Largest `s ≤ k` with `s * s ≤ n` (0 when none): linear search used
to embed `Math.sqrt` on naturals by a structural recursion that the
kernel can evaluate. -/
def sqrtSearch (n : ℕ) : ℕ → ℕ
  | 0 => 0
  | k + 1 => if (k + 1) * (k + 1) ≤ n then k + 1 else sqrtSearch n k

/-- Integer square root (agrees with `Nat.sqrt`, see `natSqrt_eq`). -/
def natSqrt (n : ℕ) : ℕ := sqrtSearch n n

/-- Nearest-integer square root, embedding `Math.round(Math.sqrt n)`
for a natural number `n`: `round(√n) = s` exactly when `n ≤ s² + s`
(the square root of a natural number is never exactly half-integral,
so no rounding tie arises). -/
def roundSqrt (n : ℕ) : ℕ :=
  let s := natSqrt n
  if n ≤ s * s + s then s else s + 1

/-- Modelled from the spec: the `chunk` list helper
(`shared/chunk.ts`, not among the analyzed sources).  Per the spec the
dispatcher must "partition the payload list into `invokers` contiguous
groups" (scenario A: 5 payloads and 2 invokers give group sizes 3 and
2), so each step takes the ceiling of the remaining length divided by
the number of groups still to fill. -/
def chunkInto {α : Type} : ℕ → List α → List (List α)
  | 0, _ => []
  | n + 1, xs =>
    let k := (xs.length + n) / (n + 1)
    xs.take k :: chunkInto n (xs.drop k)

/-! ## The launch flow as a trace-producing function

`innerLaunchHandler` (launch.ts lines 52-368) is embedded as a pure
function from the request and an environment — the outcome of every
fallible external operation, fixed up-front — to the ordered trace of
observable events (durable writes, fire dispatches, error records,
local cleanup) plus either success or the escaping exception.  Awaited
asynchronous writes appear as single completed `write` events; the
final EncodingProgress write, started at line 317 and awaited at line
358, appears as a `writeStart`/`writeEnd` pair; the throttled progress
writes are fire-and-forget and appear as `writeStart` only.  Store
reads, listings and intermediate-object deletions produce no events
(no claim concerns them).  Request fields not observable through any
claimed behaviour (ids, urls, codec settings) are omitted. -/

/-- Per-object privacy tag (`validatePrivacy` admits only these). -/
inductive Privacy
  | priv
  | pub
deriving DecidableEq, Repr

/-- Payload discriminator (`LambdaRoutines` in shared/constants.ts). -/
inductive RoutineType
  | launch
  | renderer
  | fire
  | still
deriving DecidableEq, Repr

/-- Composition-scoped optimization profile as read by
`getOptimization` and consumed by the planner. -/
structure OptimizationProfile where
  frameRange : List (ℕ × ℕ)
  frameCount : ℕ
deriving DecidableEq, Repr

/-- Composition descriptor returned by `validateComposition`. -/
structure VideoConfig where
  durationInFrames : ℕ
  fps : ℕ
  height : ℕ
  width : ℕ
deriving DecidableEq, Repr

/-- The launch request fields the claims observe.  `framesPerLambda`
is `ℤ`: the JS falsy test `!params.framesPerLambda` treats 0 as
missing, and negative values reach `validateFramesPerLambda`. -/
structure LaunchParams where
  type : RoutineType
  framesPerLambda : ℤ
  privacy : Privacy
  enableChunkOptimization : Bool
deriving DecidableEq, Repr

/-- Durable-store keys written by the orchestrator that the claims
distinguish. -/
inductive StoreKey
  | renderMetadata
  | encodingProgress
  | outFile
deriving DecidableEq, Repr

/-- The record passed to `writeLambdaError` (shape of the `errorInfo`
arguments at launch.ts lines 222-234 and 384-394). -/
structure ErrorInfoRec where
  chunk : Option ℕ
  frame : Option ℕ
  stack : String
  kind : String
  isFatal : Bool
  tmpDir : Option String
  attempt : ℕ
  totalAttempts : ℕ
  willRetry : Bool
deriving DecidableEq, Repr

/-- Observable events of a launch, in trace order. -/
inductive Ev
  | write (key : StoreKey) (privacy : Privacy) (ok : Bool)
  | writeStart (key : StoreKey) (privacy : Privacy)
  | writeEnd (key : StoreKey) (ok : Bool)
  | fireDispatch (group : ℕ) (ok : Bool)
  | optimizationWrite (ok : Bool)
  | manifestWrite (ok : Bool)
  | lambdaError (info : ErrorInfoRec) (ok : Bool)
  | concatDone
  | cleanupChunksStart
  | rmOutfile
deriving DecidableEq, Repr

/-- The exceptions that can escape `innerLaunchHandler`. -/
inductive LaunchErr
  | wrongType
  | validation (msg : String)
  | browserFailed
  | compositionInvalid
  | metadataWriteFailed
  | dispatchFailed
  | concatFailed
  | outputWriteFailed
  | collectFailed
  | optimizationWriteFailed
  | listFailed
  | inspectFailed
  | deleteFailed
  | finalProgressWriteFailed
  | manifestWriteFailed
deriving DecidableEq, Repr

/-- Stack trace captured from a thrown error, abstracted as the
error's name. -/
def stackOf : LaunchErr → String
  | LaunchErr.wrongType => "Expected launch type"
  | LaunchErr.validation m => m
  | LaunchErr.browserFailed => "browser instance failed"
  | LaunchErr.compositionInvalid => "composition could not be validated"
  | LaunchErr.metadataWriteFailed => "render metadata write failed"
  | LaunchErr.dispatchFailed => "fire group submission failed"
  | LaunchErr.concatFailed => "concatenation failed"
  | LaunchErr.outputWriteFailed => "output upload failed"
  | LaunchErr.collectFailed => "chunk information collection failed"
  | LaunchErr.optimizationWriteFailed => "optimization write failed"
  | LaunchErr.listFailed => "listing failed"
  | LaunchErr.inspectFailed => "error inspection failed"
  | LaunchErr.deleteFailed => "intermediate deletion failed"
  | LaunchErr.finalProgressWriteFailed => "final progress write failed"
  | LaunchErr.manifestWriteFailed => "post render data write failed"

/-- Modelled from the spec: `getTmpDirStateIfENoSp`
(write-lambda-error.ts, not among the analyzed sources) — the
"platform-specific low-resource diagnostic (e.g., detect out-of-space
conditions)": a tmp-dir state is captured exactly when the stack names
an out-of-space (ENOSPC) condition. -/
def getTmpDirStateIfENoSp (stack : String) : Option String :=
  if (stack.splitOn "ENOSPC").length > 1 then some "tmpDirState" else none

/-- The non-fatal ErrorInfo written when a throttled progress write
fails (launch.ts lines 220-237). -/
def progressErrorInfo : ErrorInfoRec where
  chunk := none
  frame := none
  stack := "Could not upload stitching progress"
  kind := "stitcher"
  isFatal := false
  tmpDir := none
  attempt := 1
  totalAttempts := 1
  willRetry := false

/-- The fatal ErrorInfo written by the top-level catch
(launch.ts lines 382-397). -/
def fatalErrorInfo (e : LaunchErr) : ErrorInfoRec where
  chunk := none
  frame := none
  stack := stackOf e
  kind := "stitcher"
  isFatal := true
  tmpDir := getTmpDirStateIfENoSp (stackOf e)
  attempt := 1
  totalAttempts := 1
  willRetry := false

/-- Result of a successful `concatVideosS3` call: the stream of
progress observations it delivered to `onProgress` and the encoding
start time.  Modelled from the spec for the parts outside the analyzed
sources (concat-videos.ts): the chunk-scratch cleanup promise is
started during concatenation. -/
structure ConcatOut where
  observations : List Obs
  encodingStart : ℤ
deriving DecidableEq, Repr

/-- Environment: the outcome of every fallible external operation. -/
structure Env where
  browserOk : Bool
  optimization : Option OptimizationProfile
  comp : Option VideoConfig
  metadataWriteOk : Bool
  dispatchOk : ℕ → Bool
  concat : Option ConcatOut
  progressWriteOk : ℕ → Bool
  outputWriteOk : Bool
  collectOk : Bool
  optimizedProfileValid : Bool
  optimizationWriteOk : Bool
  listOk : Bool
  inspectOk : Bool
  deleteOk : Bool
  finalProgressWriteOk : Bool
  manifestWriteOk : Bool
  errorWriteOk : Bool

/-- Modelled from the spec: the planner's default partition
(plan-frame-ranges.ts, not among the analyzed sources): contiguous
slices of `framesPerLambda` frames, the final slice shortened to fit
`frameCount` (ranges are inclusive). -/
def defaultRanges (chunkCount framesPerLambda frameCount : ℕ) : List (ℕ × ℕ) :=
  (List.range chunkCount).map fun i =>
    (i * framesPerLambda, min ((i + 1) * framesPerLambda) frameCount - 1)

/-- Modelled from the spec: `planFrameRanges` — when optimization is
requested and a profile is present whose stored `frameCount` matches
the job's, its partition is substituted verbatim and
`didUseOptimization` is true; otherwise the default partition is
used. -/
def planFrameRanges (chunkCount framesPerLambda frameCount : ℕ)
    (optimization : Option OptimizationProfile)
    (shouldUseOptimization : Bool) : List (ℕ × ℕ) × Bool :=
  match optimization, shouldUseOptimization with
  | some prof, true =>
    if prof.frameCount = frameCount then (prof.frameRange, true)
    else (defaultRanges chunkCount framesPerLambda frameCount, false)
  | _, _ => (defaultRanges chunkCount framesPerLambda frameCount, false)

/-- Events fired while `concatVideosS3` reports progress: each fired
snapshot write is submitted fire-and-forget with privacy `private`
(launch.ts lines 212-218); a failed submission is swallowed after
writing a non-fatal error record (lines 219-238). -/
def runProgressEvents (dur : ℕ) (writeOk : ℕ → Bool) (errOk : Bool) :
    ProgState → ℕ → List Obs → ProgState × List Ev
  | st, _, [] => (st, [])
  | st, i, o :: rest =>
    let p := onProgressStep dur st o.framesEncoded o.now o.start
    let evs : List Ev :=
      match p.2 with
      | none => []
      | some _ =>
        Ev.writeStart StoreKey.encodingProgress Privacy.priv ::
          (if writeOk i then [] else [Ev.lambdaError progressErrorInfo errOk])
    let r := runProgressEvents dur writeOk errOk p.1 (i + 1) rest
    (r.1, evs ++ r.2)

/-- Sequencing helper: an awaited fallible step — emit `evs`, then on
success continue with `rest`, on failure abort with `e`. -/
def step (evs : List Ev) (ok : Bool) (e : LaunchErr)
    (rest : List Ev × Except LaunchErr Unit) :
    List Ev × Except LaunchErr Unit :=
  if ok then (evs ++ rest.1, rest.2) else (evs, Except.error e)

/-- Final local cleanup (launch.ts line 367): the chunk-scratch
cleanup promise is joined and the merged artifact's local copy is
removed — reached only on the success path. -/
def cleanupPhase : List Ev × Except LaunchErr Unit :=
  ([Ev.rmOutfile], Except.ok ())

/-- Finalize phase (launch.ts lines 264-365): the optimization write
(fired only when optimization is enabled and the optimized profile
validates) is joined with the prefix listing; the final
EncodingProgress write is started (line 317), error inspection and
intermediate deletion complete, the final progress write is awaited
(line 358), and the PostRenderManifest is written once (line 359). -/
def finalizePhase (p : LaunchParams) (env : Env) :
    List Ev × Except LaunchErr Unit :=
  let optActive := p.enableChunkOptimization && env.optimizedProfileValid
  let optEvs : List Ev :=
    if optActive then [Ev.optimizationWrite env.optimizationWriteOk] else []
  step optEvs (!optActive || env.optimizationWriteOk) LaunchErr.optimizationWriteFailed <|
  step [] env.listOk LaunchErr.listFailed <|
  step [Ev.writeStart StoreKey.encodingProgress Privacy.priv] true LaunchErr.listFailed <|
  step [] env.inspectOk LaunchErr.inspectFailed <|
  step [] env.deleteOk LaunchErr.deleteFailed <|
  step [Ev.writeEnd StoreKey.encodingProgress env.finalProgressWriteOk]
    env.finalProgressWriteOk LaunchErr.finalProgressWriteFailed <|
  step [Ev.manifestWrite env.manifestWriteOk] env.manifestWriteOk
    LaunchErr.manifestWriteFailed <|
  cleanupPhase

/-- Concatenation and upload (launch.ts lines 241-295): on concat
success the progress observations drive the reporter, the merged
artifact exists (`concatDone`) and the chunk-scratch cleanup starts;
the artifact is uploaded under the job's privacy (line 260); when
optimization is enabled the chunk timings are collected (line 267). -/
def concatPhase (p : LaunchParams) (env : Env) (comp : VideoConfig) :
    List Ev × Except LaunchErr Unit :=
  match env.concat with
  | none => ([], Except.error LaunchErr.concatFailed)
  | some c =>
    let pr := runProgressEvents comp.durationInFrames env.progressWriteOk
      env.errorWriteOk initProgState 0 c.observations
    step (pr.2 ++ [Ev.concatDone, Ev.cleanupChunksStart]) true LaunchErr.concatFailed <|
    step [Ev.write StoreKey.outFile p.privacy env.outputWriteOk]
      env.outputWriteOk LaunchErr.outputWriteFailed <|
    if p.enableChunkOptimization then
      step [] env.collectOk LaunchErr.collectFailed (finalizePhase p env)
    else finalizePhase p env

/-- Fire-group dispatch (launch.ts lines 166-186): the payload list
(one per chunk) is split into `invokers` contiguous groups; every
group's fire invocation is submitted concurrently and the join fails
if any submission fails. -/
def dispatchPhase (p : LaunchParams) (env : Env) (comp : VideoConfig)
    (chunks : List (ℕ × ℕ)) (invokers : ℕ) :
    List Ev × Except LaunchErr Unit :=
  let groups := chunkInto invokers chunks
  step ((List.range groups.length).map fun i =>
      Ev.fireDispatch i (env.dispatchOk i))
    ((List.range groups.length).all env.dispatchOk) LaunchErr.dispatchFailed
    (concatPhase p env comp)

/-- The launch flow `innerLaunchHandler` (launch.ts lines 52-368).
Validation and the browser/optimization/composition reads produce no
events; the RenderMetadata write (line 157, privacy `private`) is the
first durable write and precedes the dispatch phase.
`validateFramesPerLambda` (validate-frames-per-lambda.ts, not among
the analyzed sources) is modelled from the spec: it rejects
`framesPerLambda < 1` with a validation error. -/
def innerLaunch (p : LaunchParams) (env : Env) :
    List Ev × Except LaunchErr Unit :=
  if p.type ≠ RoutineType.launch then ([], Except.error LaunchErr.wrongType)
  else if p.framesPerLambda = 0 then
    ([], Except.error (LaunchErr.validation "You need to pass framesPerLambda"))
  else if p.framesPerLambda < 1 then
    ([], Except.error (LaunchErr.validation "framesPerLambda below 1"))
  else if !env.browserOk then ([], Except.error LaunchErr.browserFailed)
  else
    match env.comp with
    | none => ([], Except.error LaunchErr.compositionInvalid)
    | some comp =>
      if comp.durationInFrames < 1 ∨ comp.fps = 0 ∨ comp.height = 0 ∨
          comp.width = 0 then
        ([], Except.error (LaunchErr.validation "composition"))
      else
        let framesPerLambda := p.framesPerLambda.toNat
        let chunkCount :=
          (comp.durationInFrames + framesPerLambda - 1) / framesPerLambda
        let planned := planFrameRanges chunkCount framesPerLambda
          comp.durationInFrames env.optimization p.enableChunkOptimization
        let invokers := roundSqrt planned.1.length
        step [Ev.write StoreKey.renderMetadata Privacy.priv env.metadataWriteOk]
          env.metadataWriteOk LaunchErr.metadataWriteFailed
          (dispatchPhase p env comp planned.1 invokers)

/-- Top-level `launchHandler` (launch.ts lines 370-399): the type
check precedes the try; any exception escaping the inner flow is
caught and exactly one fatal ErrorInfo is persisted via
`writeLambdaError`.  Modelled from the spec: `writeLambdaError`
(write-lambda-error.ts, not among the analyzed sources) is best-effort
— its own failure is swallowed (logged only), so the handler resolves
regardless of the error-write outcome. -/
def launchHandler (p : LaunchParams) (env : Env) :
    List Ev × Except LaunchErr Unit :=
  if p.type ≠ RoutineType.launch then ([], Except.error LaunchErr.wrongType)
  else
    match innerLaunch p env with
    | (t, Except.ok _) => (t, Except.ok ())
    | (t, Except.error e) =>
      (t ++ [Ev.lambdaError (fatalErrorInfo e) env.errorWriteOk], Except.ok ())

/-- Scanner for claim C1: `true` iff no fire dispatch occurs before a
completed successful RenderMetadata write. -/
def metaBeforeDispatch : List Ev → Bool
  | [] => true
  | Ev.write StoreKey.renderMetadata _ true :: _ => true
  | Ev.fireDispatch _ _ :: _ => false
  | _ :: rest => metaBeforeDispatch rest

/-- Recognizes a PostRenderManifest write. -/
def isManifestWrite : Ev → Bool
  | Ev.manifestWrite _ => true
  | _ => false

/-- Recognizes a fire-group dispatch submission. -/
def isDispatchEv : Ev → Bool
  | Ev.fireDispatch _ _ => true
  | _ => false

/-- Recognizes a fatal error record. -/
def isFatalErrorEv : Ev → Bool
  | Ev.lambdaError i _ => i.isFatal
  | _ => false

/-- Privacy discipline of claim C10: RenderMetadata and
EncodingProgress writes must be private; the merged output must carry
the job's privacy. -/
def privacyOk (jobPrivacy : Privacy) : Ev → Bool
  | Ev.write StoreKey.renderMetadata pv _ => decide (pv = Privacy.priv)
  | Ev.writeStart StoreKey.renderMetadata pv => decide (pv = Privacy.priv)
  | Ev.write StoreKey.encodingProgress pv _ => decide (pv = Privacy.priv)
  | Ev.writeStart StoreKey.encodingProgress pv => decide (pv = Privacy.priv)
  | Ev.write StoreKey.outFile pv _ => decide (pv = jobPrivacy)
  | Ev.writeStart StoreKey.outFile pv => decide (pv = jobPrivacy)
  | _ => true

/-- A concrete all-success environment used by the witnesses. -/
def envA : Env where
  browserOk := true
  optimization := none
  comp := some ⟨4, 30, 1080, 1920⟩
  metadataWriteOk := true
  dispatchOk := fun _ => true
  concat := some ⟨[], 7⟩
  progressWriteOk := fun _ => true
  outputWriteOk := true
  collectOk := true
  optimizedProfileValid := true
  optimizationWriteOk := true
  listOk := true
  inspectOk := true
  deleteOk := true
  finalProgressWriteOk := true
  manifestWriteOk := true
  errorWriteOk := true

/-- A concrete launch request used by the witnesses. -/
def pLaunch : LaunchParams := ⟨RoutineType.launch, 2, Privacy.pub, false⟩

/-- Inner-trace event invariant: metadata writes and progress write
submissions are private, the merged output carries the job's privacy,
and every error record equals the non-fatal progress record. -/
def launchEvOk (p : LaunchParams) : Ev → Bool
  | Ev.write StoreKey.renderMetadata pv _ => decide (pv = Privacy.priv)
  | Ev.write StoreKey.encodingProgress _ _ => false
  | Ev.write StoreKey.outFile pv _ => decide (pv = p.privacy)
  | Ev.writeStart StoreKey.encodingProgress pv => decide (pv = Privacy.priv)
  | Ev.writeStart _ _ => false
  | Ev.lambdaError i _ => decide (i = progressErrorInfo)
  | _ => true

/-! ## Progress reporter lemmas -/

/-- A call of `onProgress` fires no write exactly when the delta against
the previously uploaded fraction is below `0.1`; the `=== 1` test only
updates `encodingStop` and does not bypass the throttle. -/
theorem onProgressStep_skip_iff (dur : ℕ) (st : ProgState) (f : ℕ) (now start : ℤ) :
    (onProgressStep dur st f now start).2 = none ↔
      (f : ℚ) / (dur : ℚ) - st.lastProgressUploaded < 1/10 := by
  simp only [onProgressStep]
  split_ifs with h1 h2 <;> simp_all

/-- When a write fires, its recorded fraction is `framesEncoded/dur`, it
exceeds the previous uploaded fraction by at least `0.1`, and
`lastProgressUploaded` is updated to it. -/
theorem onProgressStep_write_rel (dur : ℕ) (st : ProgState) (f : ℕ) (now start : ℤ)
    (w : EncodingProgressRec) (h : (onProgressStep dur st f now start).2 = some w) :
    relOf w = (f : ℚ) / (dur : ℚ) ∧
    st.lastProgressUploaded + 1/10 ≤ relOf w ∧
    (onProgressStep dur st f now start).1.lastProgressUploaded = relOf w := by
  simp only [onProgressStep] at h ⊢
  split_ifs at h ⊢ with h1 h2
  all_goals simp at h
  all_goals subst h
  all_goals refine ⟨by simp [relOf], ?_, by simp [relOf]⟩
  all_goals simp only [relOf]
  all_goals linarith [not_lt.mp h1]

/-- A skipped call leaves `lastProgressUploaded` unchanged. -/
theorem onProgressStep_skip_state (dur : ℕ) (st : ProgState) (f : ℕ) (now start : ℤ)
    (h : (onProgressStep dur st f now start).2 = none) :
    (onProgressStep dur st f now start).1.lastProgressUploaded =
      st.lastProgressUploaded := by
  simp only [onProgressStep] at h ⊢
  split_ifs at h ⊢ with h1 h2 <;> simp_all

/-- Unfolding `runProgressList` over an observation that fires no write. -/
theorem runProgressList_cons_skip (dur : ℕ) (st : ProgState) (o : Obs) (rest : List Obs)
    (h : (onProgressStep dur st o.framesEncoded o.now o.start).2 = none) :
    runProgressList dur st (o :: rest) =
      runProgressList dur (onProgressStep dur st o.framesEncoded o.now o.start).1 rest := by
  simp [runProgressList, h]

/-- Unfolding `runProgressList` over an observation that fires a write. -/
theorem runProgressList_cons_write (dur : ℕ) (st : ProgState) (o : Obs) (rest : List Obs)
    (w : EncodingProgressRec)
    (h : (onProgressStep dur st o.framesEncoded o.now o.start).2 = some w) :
    (runProgressList dur st (o :: rest)).1 =
      (runProgressList dur (onProgressStep dur st o.framesEncoded o.now o.start).1 rest).1 ∧
    (runProgressList dur st (o :: rest)).2 =
      w :: (runProgressList dur (onProgressStep dur st o.framesEncoded o.now o.start).1 rest).2 := by
  constructor <;> simp [runProgressList, h]

/-- Over a whole run, the uploaded fraction before the first write and
the fractions of successive writes form a `≤`-chain, and the final
`lastProgressUploaded` equals the last written fraction (or the initial
one when no write fired). -/
theorem runProgressList_chain (dur : ℕ) (obs : List Obs) : ∀ (st : ProgState),
    List.Chain' (· ≤ ·)
      (st.lastProgressUploaded :: ((runProgressList dur st obs).2.map relOf)) ∧
    (runProgressList dur st obs).1.lastProgressUploaded =
      ((runProgressList dur st obs).2.map relOf).getLastD st.lastProgressUploaded := by
  induction obs with
  | nil => intro st; simp [runProgressList]
  | cons o rest ih =>
    intro st
    rcases hw : (onProgressStep dur st o.framesEncoded o.now o.start).2 with _ | w
    · have hst := onProgressStep_skip_state dur st o.framesEncoded o.now o.start hw
      have hih := ih (onProgressStep dur st o.framesEncoded o.now o.start).1
      rw [hst] at hih
      rw [runProgressList_cons_skip dur st o rest hw]
      exact hih
    · obtain ⟨hrel, hge, hupd⟩ :=
        onProgressStep_write_rel dur st o.framesEncoded o.now o.start w hw
      obtain ⟨e1, e2⟩ := runProgressList_cons_write dur st o rest w hw
      have hih := ih (onProgressStep dur st o.framesEncoded o.now o.start).1
      rw [hupd] at hih
      rw [e1, e2]
      refine ⟨?_, ?_⟩
      · rw [List.map_cons, List.chain'_cons]
        exact ⟨by linarith, hih.1⟩
      · rw [List.map_cons, List.getLastD_cons]
        exact hih.2

/-! ## Claims about the progress reporter (C2, C3, C7) -/

/-- Claim C2, counterexample: with 20 total frames and observations at 19
then 20 frames encoded, the second observation has relative value exactly
1, yet the run fires only the single write for 19 frames — the reporter
does not flush at completion when the delta since the last upload is
below 0.1, contrary to the claim's "relative < 1" exception. -/
theorem c2_counterexample :
    ((20 : ℚ) / 20 = 1) ∧
    ((runProgressList 20 initProgState
        [⟨19, 5, 0⟩, ⟨20, 9, 0⟩]).2.map (fun w => w.framesEncoded)) = [19] := by
  refine ⟨by norm_num, ?_⟩
  norm_num [runProgressList, onProgressStep, initProgState]

/-- Claim C2, amended: the reporter skips the write exactly when
`relative - lastReported < 0.1`, with no completion exception — an
observation with `relative == 1` is also skipped when its delta is below
0.1 (the final EncodingProgress snapshot is instead written
unconditionally by the finalize phase). -/
theorem c2_amended_skip_iff (dur f : ℕ) (st : ProgState) (now start : ℤ) :
    (onProgressStep dur st f now start).2 = none ↔
      (f : ℚ) / (dur : ℚ) - st.lastProgressUploaded < 1/10 :=
  onProgressStep_skip_iff dur st f now start

/-- Witness for `c2_amended_skip_iff` at a concrete input. -/
theorem c2_amended_skip_iff_witness :
    (onProgressStep 20 initProgState 1 0 0).2 = none :=
  (c2_amended_skip_iff 20 1 initProgState 0 0).mpr (by norm_num [initProgState])

/-- Claim C3: over any run of the progress reporter from its initial
state, the sequence of persisted relative values never decreases, and
each fired write updates `lastProgressUploaded` to the written value. -/
theorem c3_persisted_monotone (dur : ℕ) (obs : List Obs) :
    List.Chain' (· ≤ ·)
      ((runProgressList dur initProgState obs).2.map relOf) ∧
    ∀ (st : ProgState) (f : ℕ) (now start : ℤ) (w : EncodingProgressRec),
      (onProgressStep dur st f now start).2 = some w →
      (onProgressStep dur st f now start).1.lastProgressUploaded = relOf w :=
  ⟨((runProgressList_chain dur obs initProgState).1).tail,
   fun st f now start w h => (onProgressStep_write_rel dur st f now start w h).2.2⟩

/-- Witness for `c3_persisted_monotone` at a concrete input. -/
theorem c3_persisted_monotone_witness :
    List.Chain' (· ≤ ·)
      ((runProgressList 20 initProgState [⟨10, 0, 0⟩, ⟨20, 9, 0⟩]).2.map relOf) ∧
    (onProgressStep 20 initProgState 10 0 0).1.lastProgressUploaded =
      relOf ⟨10, 20, none, none⟩ :=
  ⟨(c3_persisted_monotone 20 [⟨10, 0, 0⟩, ⟨20, 9, 0⟩]).1,
   (c3_persisted_monotone 20 []).2 initProgState 10 0 0 ⟨10, 20, none, none⟩
     (by norm_num [onProgressStep, initProgState])⟩

/-- Claim C7, counterexample: two observations at relative value 1
(20 of 20 frames) at times 5 then 9 — the first sets the stop timestamp
to 5, but the second overwrites it to 9, so the timestamp is not
recorded "first time only" as the claim states. -/
theorem c7_counterexample :
    (runProgressList 20 initProgState [⟨20, 5, 0⟩]).1.encodingStop = some 5 ∧
    (runProgressList 20 initProgState [⟨20, 5, 0⟩, ⟨20, 9, 0⟩]).1.encodingStop
      = some 9 := by
  constructor <;> norm_num [runProgressList, onProgressStep, initProgState]

/-- Claim C7, amended: the encoding stop timestamp is recorded on every
observation whose relative value equals 1 — each such observation
overwrites it with the current time, so the value retained is from the
last completion observation, not the first. -/
theorem c7_amended_stop_overwrite (dur : ℕ) (st : ProgState) (f : ℕ)
    (now start : ℤ) (h : (f : ℚ) / (dur : ℚ) = 1) :
    (onProgressStep dur st f now start).1.encodingStop = some now := by
  simp only [onProgressStep]
  split_ifs with h1 h2 <;> simp_all

/-- Witness for `c7_amended_stop_overwrite` at a concrete input. -/
theorem c7_amended_stop_overwrite_witness :
    (onProgressStep 20 initProgState 20 9 0).1.encodingStop = some 9 :=
  c7_amended_stop_overwrite 20 initProgState 20 9 0 (by norm_num)

/-! ## Claims about the fan-out dispatcher (C5) -/

/-- The linear search result always squares to at most `n`. -/
theorem sqrtSearch_sq_le (n : ℕ) : ∀ k, sqrtSearch n k * sqrtSearch n k ≤ n
  | 0 => by simp [sqrtSearch]
  | k + 1 => by
    simp only [sqrtSearch]
    split_ifs with h
    · exact h
    · exact sqrtSearch_sq_le n k

/-- Any `s ≤ k` with `s * s ≤ n` is at most the search result. -/
theorem le_sqrtSearch (n : ℕ) : ∀ k s, s ≤ k → s * s ≤ n → s ≤ sqrtSearch n k
  | 0, s, hs, _ => by omega
  | k + 1, s, hs, hsq => by
    simp only [sqrtSearch]
    split_ifs with h
    · exact hs
    · have hne : s ≠ k + 1 := by rintro rfl; exact h hsq
      exact le_sqrtSearch n k s (by omega) hsq

/-- The executable integer square root agrees with `Nat.sqrt`. -/
theorem natSqrt_eq (n : ℕ) : natSqrt n = Nat.sqrt n :=
  le_antisymm
    (Nat.le_sqrt.2 (sqrtSearch_sq_le n n))
    (le_sqrtSearch n n (Nat.sqrt n) (Nat.sqrt_le_self n) (Nat.sqrt_le n))

/-- `roundSqrt` is positive on positive input. -/
theorem roundSqrt_pos (n : ℕ) (h : 1 ≤ n) : 1 ≤ roundSqrt n := by
  simp only [roundSqrt]
  split_ifs with hif
  · rcases Nat.eq_zero_or_pos (natSqrt n) with h0 | h1
    · rw [h0] at hif; omega
    · exact h1
  · omega

/-- `chunkInto n` always produces exactly `n` groups. -/
theorem chunkInto_length {α : Type} : ∀ (n : ℕ) (xs : List α),
    (chunkInto n xs).length = n
  | 0, _ => rfl
  | n + 1, xs => by
    simp only [chunkInto, List.length_cons]
    rw [chunkInto_length n]

/-- With at least one group, the groups concatenate back to the input:
contiguous coverage with no duplication. -/
theorem chunkInto_join_succ {α : Type} : ∀ (n : ℕ) (xs : List α),
    (chunkInto (n + 1) xs).flatten = xs
  | 0, xs => by simp [chunkInto]
  | n + 1, xs => by
    rw [chunkInto]
    simp only [List.flatten_cons, chunkInto_join_succ n, List.take_append_drop]

/-- When the list has at least `n` elements, each of the `n` groups is
non-empty. -/
theorem chunkInto_nonempty {α : Type} : ∀ (n : ℕ) (xs : List α),
    n ≤ xs.length → ∀ g ∈ chunkInto n xs, g ≠ []
  | 0, xs, _ => by simp [chunkInto]
  | n + 1, xs, h => by
    intro g hg
    obtain ⟨m, hL⟩ : ∃ m, xs.length = m + n + 1 :=
      ⟨xs.length - (n + 1), by omega⟩
    simp only [chunkInto, List.mem_cons] at hg
    rcases hg with rfl | hg
    · have hk : 1 ≤ (xs.length + n) / (n + 1) :=
        (Nat.one_le_div_iff (Nat.succ_pos n)).2 (by omega)
      have hxs : xs ≠ [] := by
        intro he
        rw [he] at hL
        simp at hL
      simp only [ne_eq, List.take_eq_nil_iff]
      push_neg
      exact ⟨by omega, hxs⟩
    · have harith : (xs.length + n) / (n + 1) < m + 2 := by
        rw [Nat.div_lt_iff_lt_mul (Nat.succ_pos n), hL]
        have h0 : 0 ≤ m * n := Nat.zero_le _
        have hexp : (m + 2) * (n + 1) = m * n + (m + 2 * n + 2) := by ring
        rw [hexp]
        linarith
      have hrec : n ≤ (xs.drop ((xs.length + n) / (n + 1))).length := by
        rw [List.length_drop]
        omega
      exact chunkInto_nonempty n _ hrec g hg

/-- Claim C5: the dispatcher splits the per-chunk payload list into
exactly `round(sqrt(chunkCount))` contiguous groups; the groups
concatenate back to the full payload list (union equals the whole set,
no duplicates), and when `chunkCount ≥ invokers` every group is
non-empty. -/
theorem c5_dispatch_groups {α : Type} (xs : List α) :
    (chunkInto (roundSqrt xs.length) xs).length = roundSqrt xs.length ∧
    (chunkInto (roundSqrt xs.length) xs).flatten = xs ∧
    (roundSqrt xs.length ≤ xs.length →
      ∀ g ∈ chunkInto (roundSqrt xs.length) xs, g ≠ []) := by
  refine ⟨chunkInto_length _ _, ?_, fun h => chunkInto_nonempty _ _ h⟩
  rcases xs with _ | ⟨a, rest⟩
  · simp [roundSqrt, natSqrt, sqrtSearch, chunkInto]
  · have hpos : 1 ≤ roundSqrt (a :: rest).length :=
      roundSqrt_pos _ (by simp)
    obtain ⟨k, hk⟩ : ∃ k, roundSqrt (a :: rest).length = k + 1 :=
      ⟨roundSqrt (a :: rest).length - 1, by omega⟩
    rw [hk]
    exact chunkInto_join_succ k _

/-- Witness for `c5_dispatch_groups`: five payloads yield two groups of
sizes 3 and 2 (spec scenario A). -/
theorem c5_dispatch_groups_witness :
    (chunkInto (roundSqrt 5) [0, 1, 2, 3, 4]).length = roundSqrt 5 ∧
    (chunkInto (roundSqrt 5) [0, 1, 2, 3, 4]).flatten = [0, 1, 2, 3, 4] ∧
    ∀ g ∈ chunkInto (roundSqrt 5) [0, 1, 2, 3, 4], g ≠ [] :=
  ⟨(c5_dispatch_groups [0, 1, 2, 3, 4]).1,
   (c5_dispatch_groups [0, 1, 2, 3, 4]).2.1,
   (c5_dispatch_groups [0, 1, 2, 3, 4]).2.2 (by decide)⟩

/-! ## Launch trace lemmas -/

/-- A step with a true flag contributes its events and continues. -/
theorem step_fst_of_true {evs : List Ev} {e : LaunchErr}
    {rest : List Ev × Except LaunchErr Unit} :
    (step evs true e rest).1 = evs ++ rest.1 := by
  simp [step]

/-- A step with a false flag aborts with its own events. -/
theorem step_of_false {evs : List Ev} {e : LaunchErr}
    {rest : List Ev × Except LaunchErr Unit} :
    step evs false e rest = (evs, Except.error e) := by
  simp [step]

/-- Inversion of a successful step. -/
theorem step_ok_inv {evs : List Ev} {ok : Bool} {e : LaunchErr}
    {rest : List Ev × Except LaunchErr Unit}
    (h : (step evs ok e rest).2 = Except.ok ()) :
    ok = true ∧ rest.2 = Except.ok () ∧
    (step evs ok e rest).1 = evs ++ rest.1 := by
  unfold step at h ⊢
  split_ifs at h ⊢ with hok
  exact ⟨hok, h, rfl⟩

/-- A step preserves an `all`-invariant. -/
theorem step_all {P : Ev → Bool} {evs : List Ev} {ok : Bool} {e : LaunchErr}
    {rest : List Ev × Except LaunchErr Unit}
    (h1 : evs.all P = true) (h2 : rest.1.all P = true) :
    (step evs ok e rest).1.all P = true := by
  unfold step
  split_ifs <;> simp_all

/-- Every event fired during progress reporting is a private progress
write submission or the non-fatal progress error record. -/
theorem runProgressEvents_mem (dur : ℕ) (writeOk : ℕ → Bool) (errOk : Bool) :
    ∀ (obs : List Obs) (st : ProgState) (i : ℕ),
      ∀ ev ∈ (runProgressEvents dur writeOk errOk st i obs).2,
        ev = Ev.writeStart StoreKey.encodingProgress Privacy.priv ∨
        ev = Ev.lambdaError progressErrorInfo errOk
  | [], st, i => by simp [runProgressEvents]
  | o :: tl, st, i => by
    intro ev hev
    simp only [runProgressEvents, List.mem_append] at hev
    rcases hev with hev | hev
    · rcases hw : (onProgressStep dur st o.framesEncoded o.now o.start).2 with _ | w
      · rw [hw] at hev
        simp at hev
      · rw [hw] at hev
        rcases hwr : writeOk i <;> rw [hwr] at hev <;> simp at hev <;> tauto
    · exact runProgressEvents_mem dur writeOk errOk tl _ _ ev hev

/-- Progress events satisfy the inner-trace invariant. -/
theorem runProgressEvents_all (p : LaunchParams) (dur : ℕ) (writeOk : ℕ → Bool)
    (errOk : Bool) (obs : List Obs) (st : ProgState) (i : ℕ) :
    ((runProgressEvents dur writeOk errOk st i obs).2.all (launchEvOk p)) = true := by
  rw [List.all_eq_true]
  intro ev hev
  rcases runProgressEvents_mem dur writeOk errOk obs st i ev hev with rfl | rfl <;>
    simp [launchEvOk]

/-- Cleanup events satisfy the inner-trace invariant. -/
theorem cleanupPhase_all (p : LaunchParams) :
    cleanupPhase.1.all (launchEvOk p) = true := by
  simp [cleanupPhase, launchEvOk]

/-- Finalize events satisfy the inner-trace invariant. -/
theorem finalizePhase_all (p : LaunchParams) (env : Env) :
    (finalizePhase p env).1.all (launchEvOk p) = true := by
  simp only [finalizePhase]
  apply step_all
  · split_ifs <;> simp [launchEvOk]
  apply step_all
  · simp
  apply step_all
  · simp [launchEvOk]
  apply step_all
  · simp
  apply step_all
  · simp
  apply step_all
  · simp [launchEvOk]
  apply step_all
  · simp [launchEvOk]
  exact cleanupPhase_all p

/-- Concat-phase events satisfy the inner-trace invariant. -/
theorem concatPhase_all (p : LaunchParams) (env : Env) (comp : VideoConfig) :
    (concatPhase p env comp).1.all (launchEvOk p) = true := by
  rcases hc : env.concat with _ | c
  · simp [concatPhase, hc]
  · simp only [concatPhase, hc]
    apply step_all
    · rw [List.all_append]
      rw [runProgressEvents_all p]
      simp [launchEvOk]
    apply step_all
    · simp [launchEvOk]
    split_ifs
    · apply step_all
      · simp
      · exact finalizePhase_all p env
    · exact finalizePhase_all p env

/-- Dispatch-phase events satisfy the inner-trace invariant. -/
theorem dispatchPhase_all (p : LaunchParams) (env : Env) (comp : VideoConfig)
    (chunks : List (ℕ × ℕ)) (invokers : ℕ) :
    (dispatchPhase p env comp chunks invokers).1.all (launchEvOk p) = true := by
  simp only [dispatchPhase]
  apply step_all
  · rw [List.all_eq_true]
    intro ev hev
    simp only [List.mem_map, List.mem_range] at hev
    obtain ⟨i, _, rfl⟩ := hev
    rfl
  · exact concatPhase_all p env comp

/-- Every event of the inner launch trace satisfies the invariant:
metadata writes and progress submissions are private, the output write
carries the job's privacy, error records are the non-fatal progress
record. -/
theorem innerLaunch_all (p : LaunchParams) (env : Env) :
    (innerLaunch p env).1.all (launchEvOk p) = true := by
  rcases hcomp : env.comp with _ | comp <;>
    simp only [innerLaunch, hcomp] <;> split_ifs <;> try rfl
  apply step_all
  · simp [launchEvOk]
  · apply dispatchPhase_all

/-- The invariant implies the privacy discipline. -/
theorem launchEvOk_privacy {p : LaunchParams} {ev : Ev}
    (h : launchEvOk p ev = true) : privacyOk p.privacy ev = true := by
  cases ev with
  | write k pv ok => cases k <;> simp_all [launchEvOk, privacyOk]
  | writeStart k pv => cases k <;> simp_all [launchEvOk, privacyOk]
  | _ => simp [privacyOk]

/-- The invariant implies no fatal error record. -/
theorem launchEvOk_not_fatal {p : LaunchParams} {ev : Ev}
    (h : launchEvOk p ev = true) : isFatalErrorEv ev = false := by
  cases ev with
  | lambdaError i ok =>
    simp only [launchEvOk, decide_eq_true_eq] at h
    subst h
    rfl
  | _ => rfl

/-- Inversion of a successful dispatch phase. -/
theorem dispatchPhase_ok (p : LaunchParams) (env : Env) (comp : VideoConfig)
    (chunks : List (ℕ × ℕ)) (invokers : ℕ)
    (h : (dispatchPhase p env comp chunks invokers).2 = Except.ok ()) :
    (concatPhase p env comp).2 = Except.ok () ∧
    ∃ dEvs, (∀ ev ∈ dEvs, isDispatchEv ev = true) ∧
      (dispatchPhase p env comp chunks invokers).1 =
        dEvs ++ (concatPhase p env comp).1 := by
  simp only [dispatchPhase] at h ⊢
  obtain ⟨_, hrest, hfst⟩ := step_ok_inv h
  refine ⟨hrest, _, ?_, hfst⟩
  intro ev hev
  simp only [List.mem_map, List.mem_range] at hev
  obtain ⟨i, _, rfl⟩ := hev
  rfl

/-- Inversion of a successful finalize phase. -/
theorem finalizePhase_ok (p : LaunchParams) (env : Env)
    (h : (finalizePhase p env).2 = Except.ok ()) :
    ∃ optEvs, (optEvs = [] ∨ optEvs = [Ev.optimizationWrite true]) ∧
      (finalizePhase p env).1 =
        optEvs ++ [Ev.writeStart StoreKey.encodingProgress Privacy.priv,
          Ev.writeEnd StoreKey.encodingProgress true,
          Ev.manifestWrite true, Ev.rmOutfile] := by
  simp only [finalizePhase] at h ⊢
  obtain ⟨hopt, h2, e1⟩ := step_ok_inv h
  obtain ⟨_, h3, e2⟩ := step_ok_inv h2
  obtain ⟨_, h4, e3⟩ := step_ok_inv h3
  obtain ⟨_, h5, e4⟩ := step_ok_inv h4
  obtain ⟨_, h6, e5⟩ := step_ok_inv h5
  obtain ⟨hfin, h7, e6⟩ := step_ok_inv h6
  obtain ⟨hman, _, e7⟩ := step_ok_inv h7
  rw [e1, e2, e3, e4, e5, e6, e7, hfin, hman]
  by_cases ha : (p.enableChunkOptimization && env.optimizedProfileValid) = true
  · rw [ha] at hopt ⊢
    simp only [Bool.not_true, Bool.false_or] at hopt
    rw [hopt]
    exact ⟨[Ev.optimizationWrite true], Or.inr rfl, by simp [cleanupPhase]⟩
  · rw [Bool.not_eq_true] at ha
    rw [ha]
    exact ⟨[], Or.inl rfl, by simp [cleanupPhase]⟩

/-- Inversion of a successful concat phase. -/
theorem concatPhase_ok (p : LaunchParams) (env : Env) (comp : VideoConfig)
    (h : (concatPhase p env comp).2 = Except.ok ()) :
    ∃ c, env.concat = some c ∧
      (finalizePhase p env).2 = Except.ok () ∧
      (concatPhase p env comp).1 =
        (runProgressEvents comp.durationInFrames env.progressWriteOk
          env.errorWriteOk initProgState 0 c.observations).2 ++
        [Ev.concatDone, Ev.cleanupChunksStart] ++
        [Ev.write StoreKey.outFile p.privacy true] ++
        (finalizePhase p env).1 := by
  rcases hc : env.concat with _ | c
  · simp [concatPhase, hc] at h
  · refine ⟨c, rfl, ?_⟩
    simp only [concatPhase, hc] at h ⊢
    obtain ⟨_, h2, e1⟩ := step_ok_inv h
    obtain ⟨hout, h3, e2⟩ := step_ok_inv h2
    rw [e1, e2, hout]
    by_cases hopt : p.enableChunkOptimization = true
    · rw [hopt] at h3 ⊢
      simp only [if_pos] at h3 ⊢
      obtain ⟨_, h4, e3⟩ := step_ok_inv h3
      rw [e3]
      exact ⟨h4, by simp⟩
    · rw [Bool.not_eq_true] at hopt
      rw [hopt] at h3 ⊢
      simp only [Bool.false_eq_true, if_false] at h3 ⊢
      exact ⟨h3, by simp⟩

/-- Inversion of a successful launch: the trace decomposes into the
metadata write, the dispatch submissions, the progress events, the
concat/upload events, the optional optimization write and the ordered
finalize tail. -/
theorem innerLaunch_ok (p : LaunchParams) (env : Env)
    (h : (innerLaunch p env).2 = Except.ok ()) :
    ∃ (comp : VideoConfig) (c : ConcatOut) (optEvs dEvs : List Ev),
      env.comp = some comp ∧ env.concat = some c ∧
      (∀ ev ∈ dEvs, isDispatchEv ev = true) ∧
      (optEvs = [] ∨ optEvs = [Ev.optimizationWrite true]) ∧
      (innerLaunch p env).1 =
        Ev.write StoreKey.renderMetadata Privacy.priv true ::
        (dEvs ++
          (runProgressEvents comp.durationInFrames env.progressWriteOk
            env.errorWriteOk initProgState 0 c.observations).2 ++
          [Ev.concatDone, Ev.cleanupChunksStart,
           Ev.write StoreKey.outFile p.privacy true] ++
          optEvs ++
          [Ev.writeStart StoreKey.encodingProgress Privacy.priv,
           Ev.writeEnd StoreKey.encodingProgress true,
           Ev.manifestWrite true, Ev.rmOutfile]) := by
  rcases hcomp : env.comp with _ | comp <;>
    simp only [innerLaunch, hcomp] at h ⊢ <;>
      split_ifs at h ⊢ <;>
        try exact absurd h (by simp)
  obtain ⟨hmeta, h2, e1⟩ := step_ok_inv h
  obtain ⟨h3, dEvs, hdmem, e2⟩ := dispatchPhase_ok p env comp _ _ h2
  obtain ⟨c, hc, h4, e3⟩ := concatPhase_ok p env comp h3
  obtain ⟨optEvs, hopt, e4⟩ := finalizePhase_ok p env h4
  refine ⟨comp, c, optEvs, dEvs, rfl, hc, hdmem, hopt, ?_⟩
  rw [e1, e2, e3, e4, hmeta]
  simp

/-- A dispatch submission is not a manifest write. -/
theorem isDispatch_not_manifest {ev : Ev} (h : isDispatchEv ev = true) :
    isManifestWrite ev = false := by
  cases ev <;> simp_all [isDispatchEv, isManifestWrite]

/-- Progress events are never manifest writes. -/
theorem prog_not_manifest (dur : ℕ) (writeOk : ℕ → Bool) (errOk : Bool)
    (obs : List Obs) (st : ProgState) (i : ℕ) :
    ∀ ev ∈ (runProgressEvents dur writeOk errOk st i obs).2,
      isManifestWrite ev = false := by
  intro ev hev
  rcases runProgressEvents_mem dur writeOk errOk obs st i ev hev with rfl | rfl <;> rfl

/-! ## Claims about the launch flow (C1, C4, C6, C8, C9, C10) -/

/-- Claim C1: in every launch no fire-group dispatch is submitted
before the RenderMetadata write has completed successfully; and when
the RenderMetadata write fails, no dispatch is ever submitted and the
launch fails with the metadata-write error (which the top-level
handler then records fatally). -/
theorem c1_metadata_before_dispatch (p : LaunchParams) (env : Env) :
    metaBeforeDispatch (innerLaunch p env).1 = true ∧
    (env.metadataWriteOk = false →
      (∀ ev ∈ (innerLaunch p env).1, isDispatchEv ev = false) ∧
      ((innerLaunch p env).1 ≠ [] →
        (innerLaunch p env).2 = Except.error LaunchErr.metadataWriteFailed)) := by
  rcases hcomp : env.comp with _ | comp <;>
    simp only [innerLaunch, hcomp] <;> split_ifs <;>
      try exact ⟨rfl, fun _ =>
        ⟨fun ev hev => by simp at hev, fun hne => absurd rfl hne⟩⟩
  cases hmeta : env.metadataWriteOk with
  | false =>
    rw [step_of_false]
    refine ⟨rfl, fun _ => ⟨?_, fun _ => rfl⟩⟩
    intro ev hev
    rcases List.mem_singleton.mp hev with rfl
    rfl
  | true =>
    refine ⟨?_, fun hcontra => absurd hcontra (by simp)⟩
    rw [step_fst_of_true]
    rfl

/-- Witness for `c1_metadata_before_dispatch`: a concrete failing
metadata write. -/
theorem c1_metadata_before_dispatch_witness :
    metaBeforeDispatch
      (innerLaunch pLaunch { envA with metadataWriteOk := false }).1 = true ∧
    (∀ ev ∈ (innerLaunch pLaunch { envA with metadataWriteOk := false }).1,
      isDispatchEv ev = false) ∧
    (innerLaunch pLaunch { envA with metadataWriteOk := false }).2 =
      Except.error LaunchErr.metadataWriteFailed :=
  ⟨(c1_metadata_before_dispatch pLaunch _).1,
   ((c1_metadata_before_dispatch pLaunch _).2 rfl).1,
   ((c1_metadata_before_dispatch pLaunch _).2 rfl).2 (by decide)⟩

/-- Claim C8: a launch request with `framesPerLambda < 1` (including
0, which JavaScript treats as a missing parameter) fails with a
validation error and produces no event at all — in particular, no
durable-store write happens. -/
theorem c8_frames_validation (p : LaunchParams) (env : Env)
    (htype : p.type = RoutineType.launch) (h : p.framesPerLambda < 1) :
    (∃ m, (innerLaunch p env).2 = Except.error (LaunchErr.validation m)) ∧
    (innerLaunch p env).1 = [] := by
  rcases eq_or_ne p.framesPerLambda 0 with h0 | h0 <;>
    simp [innerLaunch, htype, h0, h]

/-- Witness for `c8_frames_validation` at `framesPerLambda = 0`. -/
theorem c8_frames_validation_witness :
    (∃ m, (innerLaunch ⟨RoutineType.launch, 0, Privacy.pub, false⟩ envA).2 =
      Except.error (LaunchErr.validation m)) ∧
    (innerLaunch ⟨RoutineType.launch, 0, Privacy.pub, false⟩ envA).1 = [] :=
  c8_frames_validation ⟨RoutineType.launch, 0, Privacy.pub, false⟩ envA rfl
    (by decide)

/-- Claim C4: when the inner launch flow fails with any exception, the
top-level handler appends exactly one fatal ErrorInfo record — with
attempt 1, totalAttempts 1, willRetry false, the captured stack and the
low-resource diagnostic — and itself resolves successfully regardless
of the outcome of that error write (its failure is swallowed,
`writeLambdaError` being modelled from the spec as best-effort). -/
theorem c4_fatal_error_record (p : LaunchParams) (env : Env) (e : LaunchErr)
    (htype : p.type = RoutineType.launch)
    (h : (innerLaunch p env).2 = Except.error e) :
    (launchHandler p env).2 = Except.ok () ∧
    (launchHandler p env).1 =
      (innerLaunch p env).1 ++
        [Ev.lambdaError (fatalErrorInfo e) env.errorWriteOk] ∧
    (launchHandler p env).1.countP isFatalErrorEv = 1 ∧
    (fatalErrorInfo e).isFatal = true ∧
    (fatalErrorInfo e).attempt = 1 ∧
    (fatalErrorInfo e).totalAttempts = 1 ∧
    (fatalErrorInfo e).willRetry = false ∧
    (fatalErrorInfo e).stack = stackOf e ∧
    (fatalErrorInfo e).tmpDir = getTmpDirStateIfENoSp (stackOf e) := by
  have hinner0 : (innerLaunch p env).1.countP isFatalErrorEv = 0 := by
    rw [List.countP_eq_zero]
    intro ev hev
    have hf := launchEvOk_not_fatal
      ((List.all_eq_true.mp (innerLaunch_all p env)) ev hev)
    simp [hf]
  have hh : launchHandler p env =
      ((innerLaunch p env).1 ++
        [Ev.lambdaError (fatalErrorInfo e) env.errorWriteOk], Except.ok ()) := by
    rcases hi : innerLaunch p env with ⟨t, r⟩
    rw [hi] at h
    have hr : r = Except.error e := h
    subst hr
    simp [launchHandler, htype, hi]
  have hh1 : (launchHandler p env).1 =
      (innerLaunch p env).1 ++
        [Ev.lambdaError (fatalErrorInfo e) env.errorWriteOk] := by rw [hh]
  have hh2 : (launchHandler p env).2 = Except.ok () := by rw [hh]
  refine ⟨hh2, hh1, ?_, rfl, rfl, rfl, rfl, rfl, rfl⟩
  rw [hh1, List.countP_append, hinner0]
  rfl

/-- Witness for `c4_fatal_error_record`: a failing metadata write is
recorded fatally exactly once and the handler resolves. -/
theorem c4_fatal_error_record_witness :
    (launchHandler pLaunch { envA with metadataWriteOk := false }).2 =
      Except.ok () ∧
    (launchHandler pLaunch
      { envA with metadataWriteOk := false }).1.countP isFatalErrorEv = 1 :=
  ⟨(c4_fatal_error_record pLaunch { envA with metadataWriteOk := false }
      LaunchErr.metadataWriteFailed rfl (by rfl)).1,
   (c4_fatal_error_record pLaunch { envA with metadataWriteOk := false }
      LaunchErr.metadataWriteFailed rfl (by rfl)).2.2.1⟩

/-- Claim C6: in every successful launch the trace splits at the
completed final EncodingProgress write: no manifest write precedes it,
every manifest write follows it, and the PostRenderManifest is written
exactly once. -/
theorem c6_final_progress_then_manifest (p : LaunchParams) (env : Env)
    (h : (innerLaunch p env).2 = Except.ok ()) :
    ∃ l1 l2, (innerLaunch p env).1 =
        l1 ++ Ev.writeEnd StoreKey.encodingProgress true :: l2 ∧
      (∀ ev ∈ l1, isManifestWrite ev = false) ∧
      l2.countP isManifestWrite = 1 ∧
      (innerLaunch p env).1.countP isManifestWrite = 1 := by
  obtain ⟨comp, c, optEvs, dEvs, hcomp, hc, hd, hopt, htr⟩ :=
    innerLaunch_ok p env h
  refine ⟨Ev.write StoreKey.renderMetadata Privacy.priv true ::
      (dEvs ++
        (runProgressEvents comp.durationInFrames env.progressWriteOk
          env.errorWriteOk initProgState 0 c.observations).2 ++
        [Ev.concatDone, Ev.cleanupChunksStart,
         Ev.write StoreKey.outFile p.privacy true] ++
        optEvs ++ [Ev.writeStart StoreKey.encodingProgress Privacy.priv]),
    [Ev.manifestWrite true, Ev.rmOutfile], ?_, ?_, rfl, ?_⟩
  · rw [htr]
    simp
  · intro ev hev
    simp only [List.mem_cons, List.mem_append, List.not_mem_nil, or_false,
      false_or] at hev
    rcases hev with rfl | hev
    · rfl
    rcases hev with hev | rfl
    swap
    · rfl
    rcases hev with hev | hev
    swap
    · rcases hopt with rfl | rfl
      · simp at hev
      · rw [List.mem_singleton] at hev
        subst hev
        rfl
    rcases hev with hev | hev
    swap
    · rcases hev with rfl | rfl | rfl <;> rfl
    rcases hev with hev | hev
    · exact isDispatch_not_manifest (hd ev hev)
    · exact prog_not_manifest _ _ _ _ _ _ ev hev
  · rw [htr]
    have h0 : dEvs.countP isManifestWrite = 0 := by
      rw [List.countP_eq_zero]
      intro ev hev
      simp [isDispatch_not_manifest (hd ev hev)]
    have h1 : ((runProgressEvents comp.durationInFrames env.progressWriteOk
        env.errorWriteOk initProgState 0 c.observations).2).countP
          isManifestWrite = 0 := by
      rw [List.countP_eq_zero]
      intro ev hev
      simp [prog_not_manifest _ _ _ _ _ _ ev hev]
    have h2 : optEvs.countP isManifestWrite = 0 := by
      rcases hopt with rfl | rfl <;> rfl
    simp [List.countP_cons, List.countP_append, h0, h1, h2, isManifestWrite]

/-- Witness for `c6_final_progress_then_manifest` at a concrete
successful launch. -/
theorem c6_final_progress_then_manifest_witness :
    ∃ l1 l2, (innerLaunch pLaunch envA).1 =
        l1 ++ Ev.writeEnd StoreKey.encodingProgress true :: l2 ∧
      (∀ ev ∈ l1, isManifestWrite ev = false) ∧
      l2.countP isManifestWrite = 1 ∧
      (innerLaunch pLaunch envA).1.countP isManifestWrite = 1 :=
  c6_final_progress_then_manifest pLaunch envA (by rfl)

/-- Claim C9, counterexample: with every operation succeeding except
the PostRenderManifest write, the merged artifact is produced
(`concatDone` is in the trace) and the launch fails, but the removal
of the artifact's local copy never happens — the cleanup at line 367
is unreachable on this failure path, so release is not unconditional. -/
theorem c9_counterexample :
    Ev.concatDone ∈
      (innerLaunch pLaunch { envA with manifestWriteOk := false }).1 ∧
    Ev.rmOutfile ∉
      (innerLaunch pLaunch { envA with manifestWriteOk := false }).1 ∧
    (innerLaunch pLaunch { envA with manifestWriteOk := false }).2 =
      Except.error LaunchErr.manifestWriteFailed :=
  ⟨by decide, by decide, by rfl⟩

/-- Claim C9, amended: local temporary resources are released on the
success path — the chunk-scratch cleanup is started during
concatenation and the merged artifact's local copy is removed after
the manifest write; on a failure after the artifact is produced, the
local copy is not removed (see the counterexample). -/
theorem c9_amended_cleanup_on_success (p : LaunchParams) (env : Env)
    (h : (innerLaunch p env).2 = Except.ok ()) :
    Ev.rmOutfile ∈ (innerLaunch p env).1 ∧
    Ev.cleanupChunksStart ∈ (innerLaunch p env).1 := by
  obtain ⟨comp, c, optEvs, dEvs, _, _, _, _, htr⟩ := innerLaunch_ok p env h
  rw [htr]
  constructor <;> simp

/-- Witness for `c9_amended_cleanup_on_success` at a concrete
successful launch. -/
theorem c9_amended_cleanup_on_success_witness :
    Ev.rmOutfile ∈ (innerLaunch pLaunch envA).1 ∧
    Ev.cleanupChunksStart ∈ (innerLaunch pLaunch envA).1 :=
  c9_amended_cleanup_on_success pLaunch envA (by rfl)

/-- Claim C10: in every launch, every RenderMetadata write and every
EncodingProgress write (throttled or final) carries privacy `private`
regardless of the job's privacy parameter, while the merged output
write carries the job's privacy — and on success the output write is
present in the trace. -/
theorem c10_privacy_discipline (p : LaunchParams) (env : Env) :
    (∀ ev ∈ (innerLaunch p env).1, privacyOk p.privacy ev = true) ∧
    ((innerLaunch p env).2 = Except.ok () →
      Ev.write StoreKey.outFile p.privacy true ∈ (innerLaunch p env).1) := by
  constructor
  · intro ev hev
    exact launchEvOk_privacy
      ((List.all_eq_true.mp (innerLaunch_all p env)) ev hev)
  · intro h
    obtain ⟨comp, c, optEvs, dEvs, _, _, _, _, htr⟩ := innerLaunch_ok p env h
    rw [htr]
    simp

/-- Witness for `c10_privacy_discipline` at a concrete launch with a
public job privacy. -/
theorem c10_privacy_discipline_witness :
    privacyOk pLaunch.privacy
      (Ev.write StoreKey.renderMetadata Privacy.priv true) = true ∧
    Ev.write StoreKey.outFile pLaunch.privacy true ∈
      (innerLaunch pLaunch envA).1 :=
  ⟨(c10_privacy_discipline pLaunch envA).1
      (Ev.write StoreKey.renderMetadata Privacy.priv true) (by decide),
   (c10_privacy_discipline pLaunch envA).2 (by rfl)⟩

end Launch
